import Mathlib

/-!
Shallow embedding of the `easy-token-bucket-ratelimiter` TypeScript library
(files `src/tokenBucket.ts`, `src/redisBucket.ts`, `src/manager.ts`).

Numbers: JavaScript numbers are modelled as rationals (`ℚ`); timestamps are
rationals in milliseconds.  The injected clock `getTime` is modelled by
passing the value it would return explicitly to each operation (the source
calls it once per `refill`).  `Math.ceil` is `Int.ceil`, `Math.min` is `min`.
Mutation of the `this` object is modelled by returning the updated record.
-/

/-- State of the in-memory `TokenBucket` class (`tokenBucket.ts`): the
configuration fields, the mutable `tokens`/`lastRefillTimestamp` pair and the
three per-instance metric counters. -/
structure TokenBucket where
  capacity : ℚ
  refillRate : ℚ
  tokens : ℚ
  lastRefillTimestamp : ℚ
  totalRequests : ℕ
  allowedRequests : ℕ
  limitedRequests : ℕ
  deriving Repr, DecidableEq

namespace TokenBucket

/-- The constructor (`tokenBucket.ts` lines 27–38).  It validates
`capacity > 0 ∧ refillRate ≥ 0` (throwing otherwise, modelled by `none`) and
sets `tokens = capacity` and `lastRefillTimestamp = Date.now()`.  Note the
source initialises `lastRefillTimestamp` from the ambient `Date.now()`, not
from the injected `options.currentTime`; `dateNow` is that ambient value. -/
def create (capacity refillRate dateNow : ℚ) : Option TokenBucket :=
  if capacity ≤ 0 ∨ refillRate < 0 then none
  else some
    { capacity := capacity
      refillRate := refillRate
      tokens := capacity
      lastRefillTimestamp := dateNow
      totalRequests := 0
      allowedRequests := 0
      limitedRequests := 0 }

/-- `refill` (`tokenBucket.ts` lines 147–156): `now` is the value returned by
`this.getTime()`; when the elapsed time is positive, tokens grow linearly and
are capped at `capacity`, and `lastRefillTimestamp` is advanced. -/
def refill (b : TokenBucket) (now : ℚ) : TokenBucket :=
  let elapsedSeconds := (now - b.lastRefillTimestamp) / 1000
  if elapsedSeconds > 0 then
    { b with
      tokens := min (b.tokens + elapsedSeconds * b.refillRate) b.capacity
      lastRefillTimestamp := now }
  else b

/-- `allow` (`tokenBucket.ts` lines 45–61) without a registered
`onRateLimit` hook: bump `totalRequests`, refill, then consume `cost` tokens
when available.  Returns the boolean result and the updated bucket. -/
def allow (b : TokenBucket) (now cost : ℚ) : Bool × TokenBucket :=
  let b1 := { b with totalRequests := b.totalRequests + 1 }
  let b2 := b1.refill now
  if b2.tokens ≥ cost then
    (true, { b2 with tokens := b2.tokens - cost
                     allowedRequests := b2.allowedRequests + 1 })
  else
    (false, { b2 with limitedRequests := b2.limitedRequests + 1 })

/-- `check` (`tokenBucket.ts` lines 113–116): refill, then report
`tokens ≥ cost` without consuming. -/
def check (b : TokenBucket) (now cost : ℚ) : Bool × TokenBucket :=
  let b1 := b.refill now
  (b1.tokens ≥ cost, b1)

/-- `timeToRefill` (`tokenBucket.ts` lines 129–135): refill, return 0 when
satisfied, otherwise `Math.ceil(((cost - tokens) / refillRate) * 1000)`.
(When `refillRate = 0` the source computes `Infinity`; rational division by
zero yields 0 instead, so theorems about this function assume
`refillRate > 0`.) -/
def timeToRefill (b : TokenBucket) (now cost : ℚ) : ℤ × TokenBucket :=
  let b1 := b.refill now
  if b1.tokens ≥ cost then (0, b1)
  else (⌈(cost - b1.tokens) / b1.refillRate * 1000⌉, b1)

/-- `getState` (`tokenBucket.ts` lines 161–169) refills and returns a
snapshot; as a state transformer it is just the refill (the snapshot's
display rounding does not touch the stored fields). -/
def getState (b : TokenBucket) (now : ℚ) : TokenBucket :=
  b.refill now

/-- `reset` (`tokenBucket.ts` lines 181–184): `tokens = capacity`,
`lastRefillTimestamp = getTime()`. -/
def reset (b : TokenBucket) (now : ℚ) : TokenBucket :=
  { b with tokens := b.capacity, lastRefillTimestamp := now }

/-- `getMetrics` (`tokenBucket.ts` lines 189–195). -/
def getMetrics (b : TokenBucket) : ℕ × ℕ × ℕ :=
  (b.totalRequests, b.allowedRequests, b.limitedRequests)

end TokenBucket

/-- Result of one run of the Redis Lua script
(`redisBucket.ts`, `REDIS_TOKEN_BUCKET_LUA`): the returned `allowed` flag and
`tokens`/`lastRefill`, plus the `(tokens, lastRefill)` pair written back to
the key by `HMSET`. -/
structure LuaResult where
  allowed : Bool
  tokens : ℚ
  lastRefill : ℚ
  stored : ℚ × ℚ
  deriving Repr, DecidableEq

/-- One atomic execution of `REDIS_TOKEN_BUCKET_LUA` (`redisBucket.ts`
lines 21–65).  `stored` is the `HMGET` result for the key (`none` when the
key is absent).  The script initialises an absent key to
`(capacity, nowMs)`, applies the refill formula, decides `allowed`,
optionally consumes, and writes the state back unconditionally. -/
def luaTokenBucket (capacity refillRate cost nowMs : ℚ) (consume : Bool)
    (stored : Option (ℚ × ℚ)) : LuaResult :=
  let init := match stored with
    | none => (capacity, nowMs)
    | some p => p
  let tokens0 := init.1
  let lastRefill0 := init.2
  let elapsedMs := nowMs - lastRefill0
  let refilled :=
    if elapsedMs > 0 then
      let t := tokens0 + elapsedMs / 1000 * refillRate
      (if t > capacity then capacity else t, nowMs)
    else (tokens0, lastRefill0)
  let tokens1 := refilled.1
  let lastRefill1 := refilled.2
  if tokens1 ≥ cost then
    let tokens2 := if consume then tokens1 - cost else tokens1
    { allowed := true, tokens := tokens2, lastRefill := lastRefill1
      stored := (tokens2, lastRefill1) }
  else
    { allowed := false, tokens := tokens1, lastRefill := lastRefill1
      stored := (tokens1, lastRefill1) }

/-- One caller-visible operation on a local bucket, together with the value
the injected clock returns during that call and the cost argument (the
source validates neither). -/
inductive Op where
  | allow (now cost : ℚ)
  | check (now cost : ℚ)
  | timeToRefill (now cost : ℚ)
  | getState (now : ℚ)
  | reset (now : ℚ)
  deriving Repr, DecidableEq

/-- The state transformer of one operation (outputs discarded). -/
def Op.apply (b : TokenBucket) : Op → TokenBucket
  | .allow now cost => (b.allow now cost).2
  | .check now cost => (b.check now cost).2
  | .timeToRefill now cost => (b.timeToRefill now cost).2
  | .getState now => b.getState now
  | .reset now => b.reset now

/-- Run a sequence of operations left to right. -/
def runOps (b : TokenBucket) (ops : List Op) : TokenBucket :=
  ops.foldl Op.apply b

/-- An operation whose `allow` cost (if any) is nonnegative. -/
def Op.nonnegAllowCost : Op → Prop
  | .allow _ cost => 0 ≤ cost
  | _ => True

instance : DecidablePred Op.nonnegAllowCost := by
  intro op
  cases op <;> simp only [Op.nonnegAllowCost] <;> infer_instance

/-- `allow` with a registered `onRateLimit` hook (`tokenBucket.ts` lines
45–61).  On denial the source calls `this.onRateLimit(this.getState())`:
`getState` performs a second refill with a fresh `getTime()` value (`now2`),
and the hook runs after the counters and tokens are already updated.  A hook
that throws makes the whole call throw (`Except.error`); the `this` object
survives, so the final bucket state is returned in either case. -/
def TokenBucket.allowHook (b : TokenBucket) (now1 now2 cost : ℚ)
    (hookThrows : Bool) : Except Unit Bool × TokenBucket :=
  let b1 := { b with totalRequests := b.totalRequests + 1 }
  let b2 := b1.refill now1
  if b2.tokens ≥ cost then
    (Except.ok true, { b2 with tokens := b2.tokens - cost
                               allowedRequests := b2.allowedRequests + 1 })
  else
    let b3 := { b2 with limitedRequests := b2.limitedRequests + 1 }
    let b4 := b3.getState now2
    if hookThrows then (Except.error (), b4) else (Except.ok false, b4)

/-- State of the `TokenBucketManager` class (`manager.ts`): the key → entry
map (modelled as an association list with unique keys), the optional TTL and
the bucket factory.  The manager-level hook is modelled at the call sites. -/
structure Manager where
  entries : List (String × TokenBucket × ℚ)
  ttlMs : Option ℚ
  createBucket : String → TokenBucket

namespace Manager

/-- `Map.get` on the entry map. -/
def findEntry (m : Manager) (key : String) : Option (TokenBucket × ℚ) :=
  (m.entries.find? (fun e => e.1 == key)).map (fun e => e.2)

/-- `Map.delete` on the entry map. -/
def eraseKey (l : List (String × TokenBucket × ℚ)) (key : String) :
    List (String × TokenBucket × ℚ) :=
  l.filter (fun e => !(e.1 == key))

/-- `Map.set` on the entry map (replaces any entry with the same key). -/
def setEntry (l : List (String × TokenBucket × ℚ)) (key : String)
    (b : TokenBucket) (lastAccess : ℚ) : List (String × TokenBucket × ℚ) :=
  eraseKey l key ++ [(key, b, lastAccess)]

/-- `TokenBucketManager.get` (`manager.ts` lines 42–61): with a TTL
configured, an entry idle longer than the TTL is deleted first; then either
the surviving entry is returned with `lastAccess = now`, or a fresh bucket is
built by the factory and stored.  `now` is the manager's own `Date.now()`. -/
def get (m : Manager) (now : ℚ) (key : String) : TokenBucket × Manager :=
  let entries1 :=
    match m.findEntry key, m.ttlMs with
    | some (_, la), some ttl =>
        if now - la > ttl then eraseKey m.entries key else m.entries
    | _, _ => m.entries
  match (entries1.find? (fun e => e.1 == key)) with
  | none =>
      let b := m.createBucket key
      (b, { m with entries := setEntry entries1 key b now })
  | some e =>
      (e.2.1, { m with entries := setEntry entries1 key e.2.1 now })

/-- `TokenBucketManager.allow` (`manager.ts` lines 63–70) without a
registry-level hook: resolve, delegate to the bucket's `allow`, and (since
the source mutates the stored bucket in place) store the updated bucket.
`nowM` is the manager's `Date.now()`, `nowB` the bucket clock's value. -/
def allow (m : Manager) (nowM nowB : ℚ) (key : String) (cost : ℚ) :
    Bool × Manager :=
  let p := m.get nowM key
  let q := p.1.allow nowB cost
  (q.1, { p.2 with entries := setEntry p.2.entries key q.2 nowM })

/-- `TokenBucketManager.allow` with a registry-level `onRateLimit` hook: on
denial the source calls `this.onRateLimit(key, bucket.getState())`, whose
`getState` refills the bucket once more at `nowS`.  A throwing hook makes
the call throw after all bucket mutations are in place. -/
def allowHook (m : Manager) (nowM nowB nowS : ℚ) (key : String) (cost : ℚ)
    (hookThrows : Bool) : Except Unit Bool × Manager :=
  let p := m.get nowM key
  let q := p.1.allow nowB cost
  if q.1 then
    (Except.ok true, { p.2 with entries := setEntry p.2.entries key q.2 nowM })
  else
    let b2 := q.2.getState nowS
    let m2 := { p.2 with entries := setEntry p.2.entries key b2 nowM }
    if hookThrows then (Except.error (), m2) else (Except.ok false, m2)

/-- `TokenBucketManager.cleanup` (`manager.ts` lines 88–96): a no-op without
a TTL, otherwise removes every entry with `now - lastAccess > ttl`. -/
def cleanup (m : Manager) (now : ℚ) : Manager :=
  match m.ttlMs with
  | none => m
  | some ttl =>
      { m with entries := m.entries.filter (fun e => !(now - e.2.2 > ttl)) }

end Manager

/-- Outcome of `TokenBucket.acquire`: success, the timeout error, or the
degenerate-case error thrown when `refillRate ≤ 0` and the bucket cannot
satisfy the cost. -/
inductive AcquireResult where
  | ok
  | timeoutErr
  | shortageErr
  deriving Repr, DecidableEq

/-- The retry loop of `acquire` (`tokenBucket.ts` lines 88–107).  `τ k` is
the value the injected clock returns on its `k`-th call during the whole
`acquire` invocation (time advancing during `await delay(wait)` is whatever
`τ` says); `start` is the entry timestamp; `fuel` bounds the number of
iterations, `none` meaning the loop was still running. -/
def acquireLoop (τ : ℕ → ℚ) (cost : ℚ) (timeoutMs : Option ℚ) (start : ℚ) :
    ℕ → ℕ → TokenBucket → Option AcquireResult × TokenBucket
  | 0, _, b => (none, b)
  | fuel + 1, k, b =>
    let p := b.allow (τ k) cost
    if p.1 then (some .ok, p.2)
    else
      let q := p.2.timeToRefill (τ (k + 1)) cost
      if q.1 ≤ 0 then acquireLoop τ cost timeoutMs start fuel (k + 2) q.2
      else
        match timeoutMs with
        | some tmo =>
            let elapsed := τ (k + 2) - start
            if elapsed + (q.1 : ℚ) > tmo then (some .timeoutErr, q.2)
            else acquireLoop τ cost timeoutMs start fuel (k + 3) q.2
        | none => acquireLoop τ cost timeoutMs start fuel (k + 2) q.2

/-- `acquire` (`tokenBucket.ts` lines 75–108): record the start time, fail
fast when `refillRate ≤ 0` and `check(cost)` is false (note the `&&`
short-circuit: `check` only runs when `refillRate ≤ 0`), then enter the
retry loop. -/
def acquire (τ : ℕ → ℚ) (fuel : ℕ) (b : TokenBucket) (cost : ℚ)
    (timeoutMs : Option ℚ) : Option AcquireResult × TokenBucket :=
  let start := τ 0
  if b.refillRate ≤ 0 then
    let p := b.check (τ 1) cost
    if !p.1 then (some .shortageErr, p.2)
    else acquireLoop τ cost timeoutMs start fuel 2 p.2
  else acquireLoop τ cost timeoutMs start fuel 1 b

/-- Concrete bucket as produced by `new TokenBucket({capacity: 10, refillRate: 5})`
with both the ambient and the injected clock at 0. -/
def bucketA : TokenBucket :=
  { capacity := 10, refillRate := 5, tokens := 10, lastRefillTimestamp := 0
    totalRequests := 0, allowedRequests := 0, limitedRequests := 0 }

/-- Concrete bucket with capacity 1, refill rate 1 and an empty token store. -/
def bucketE : TokenBucket :=
  { capacity := 1, refillRate := 1, tokens := 0, lastRefillTimestamp := 0
    totalRequests := 0, allowedRequests := 0, limitedRequests := 0 }

/-- Concrete manager with `ttlMs = 1000`, no entries, and a factory that
builds `bucketA` for every key. -/
def managerA : Manager := { entries := [], ttlMs := some 1000, createBucket := fun _ => bucketA }

/-- Concrete manager holding one entry for key `"a"` with `lastAccess = 0`. -/
def managerB : Manager :=
  { entries := [("a", bucketA, 0)], ttlMs := some 1000, createBucket := fun _ => bucketA }

/-- The two invariant bounds on the token count. -/
def TokenBucket.Inv (b : TokenBucket) : Prop :=
  0 ≤ b.tokens ∧ b.tokens ≤ b.capacity

/-- Well-formedness established by the constructor's validation. -/
def TokenBucket.WF (b : TokenBucket) : Prop :=
  0 < b.capacity ∧ 0 ≤ b.refillRate

theorem div_thousand_pos_iff (x : ℚ) : 0 < x / 1000 ↔ 0 < x := by
  rw [lt_div_iff₀ (by norm_num : (0:ℚ) < 1000)]
  simp

theorem ite_gt_eq_min (t c : ℚ) : (if t > c then c else t) = min t c := by
  rw [min_def]
  split_ifs with h1 h2 <;> first | rfl | linarith

theorem TokenBucket.refill_capacity (b : TokenBucket) (now : ℚ) :
    (b.refill now).capacity = b.capacity := by
  simp only [TokenBucket.refill]
  split <;> rfl

theorem TokenBucket.refill_refillRate (b : TokenBucket) (now : ℚ) :
    (b.refill now).refillRate = b.refillRate := by
  simp only [TokenBucket.refill]
  split <;> rfl

theorem TokenBucket.refill_counters (b : TokenBucket) (now : ℚ) :
    (b.refill now).totalRequests = b.totalRequests
    ∧ (b.refill now).allowedRequests = b.allowedRequests
    ∧ (b.refill now).limitedRequests = b.limitedRequests := by
  simp only [TokenBucket.refill]
  split <;> exact ⟨rfl, rfl, rfl⟩

theorem TokenBucket.refill_wf (b : TokenBucket) (now : ℚ) (h : b.WF) :
    (b.refill now).WF := by
  unfold TokenBucket.WF at h ⊢
  rw [TokenBucket.refill_capacity, TokenBucket.refill_refillRate]
  exact h

theorem TokenBucket.refill_inv (b : TokenBucket) (now : ℚ)
    (hwf : b.WF) (hinv : b.Inv) : (b.refill now).Inv := by
  unfold TokenBucket.Inv at hinv ⊢
  rw [TokenBucket.refill_capacity]
  simp only [TokenBucket.refill]
  split_ifs with h
  · constructor
    · have he : 0 ≤ (now - b.lastRefillTimestamp) / 1000 := le_of_lt h
      exact le_min (add_nonneg hinv.1 (mul_nonneg he hwf.2)) hwf.1.le
    · exact min_le_right _ b.capacity
  · exact hinv

theorem TokenBucket.allow_wf (b : TokenBucket) (now cost : ℚ) (h : b.WF) :
    ((b.allow now cost).2).WF := by
  simp only [TokenBucket.allow]
  have h1 : TokenBucket.WF { b with totalRequests := b.totalRequests + 1 } := h
  have h2 := TokenBucket.refill_wf _ now h1
  split <;> exact h2

theorem TokenBucket.allow_inv (b : TokenBucket) (now cost : ℚ)
    (hwf : b.WF) (hinv : b.Inv) (hcost : 0 ≤ cost) :
    ((b.allow now cost).2).Inv := by
  simp only [TokenBucket.allow]
  have h1 : TokenBucket.WF { b with totalRequests := b.totalRequests + 1 } := hwf
  have h1' : TokenBucket.Inv { b with totalRequests := b.totalRequests + 1 } := hinv
  have h2 := TokenBucket.refill_inv _ now h1 h1'
  split_ifs with hge
  · refine ⟨?_, ?_⟩
    · simpa using sub_nonneg.mpr hge
    · calc _ ≤ _ := sub_le_self _ hcost
        _ ≤ _ := h2.2
  · exact h2

theorem Op.apply_wf (b : TokenBucket) (op : Op) (h : b.WF) :
    (Op.apply b op).WF := by
  cases op with
  | allow now cost => exact TokenBucket.allow_wf b now cost h
  | check now cost => exact TokenBucket.refill_wf b now h
  | timeToRefill now cost =>
      simp only [Op.apply, TokenBucket.timeToRefill]
      have h2 := TokenBucket.refill_wf b now h
      split <;> exact h2
  | getState now => exact TokenBucket.refill_wf b now h
  | reset now => exact h

theorem Op.apply_inv (b : TokenBucket) (op : Op)
    (hwf : b.WF) (hinv : b.Inv) (hop : op.nonnegAllowCost) :
    (Op.apply b op).Inv := by
  cases op with
  | allow now cost => exact TokenBucket.allow_inv b now cost hwf hinv hop
  | check now cost => exact TokenBucket.refill_inv b now hwf hinv
  | timeToRefill now cost =>
      simp only [Op.apply, TokenBucket.timeToRefill]
      have h2 := TokenBucket.refill_inv b now hwf hinv
      split <;> exact h2
  | getState now => exact TokenBucket.refill_inv b now hwf hinv
  | reset now => exact ⟨hwf.1.le, le_refl _⟩

theorem runOps_inv (b : TokenBucket) (ops : List Op)
    (hwf : b.WF) (hinv : b.Inv) (hops : ∀ op ∈ ops, op.nonnegAllowCost) :
    (runOps b ops).Inv := by
  induction ops generalizing b with
  | nil => exact hinv
  | cons op tl ih =>
      have hophead : op.nonnegAllowCost := hops op (List.mem_cons_self op tl)
      have htl : ∀ o ∈ tl, o.nonnegAllowCost := fun o ho => hops o (List.mem_cons_of_mem op ho)
      exact ih (Op.apply b op) (Op.apply_wf b op hwf) (Op.apply_inv b op hwf hinv hophead) htl

theorem TokenBucket.create_eq_some (c r d : ℚ) (b : TokenBucket)
    (h : TokenBucket.create c r d = some b) :
    b.WF ∧ b.Inv := by
  unfold TokenBucket.create at h
  split_ifs at h with hbad
  push_neg at hbad
  rw [Option.some.injEq] at h
  subst h
  exact ⟨⟨hbad.1, hbad.2⟩, ⟨hbad.1.le, le_refl _⟩⟩

/-- C1: the spec's refill-linearity scenario B (capacity 10, refill rate 5;
consume 10 at t=0; clock advanced to t=2000ms; `check(10)` true) fails on the
code when the bucket is constructed with an injected `currentTime` source:
the constructor initialises `lastRefillTimestamp` from the ambient
`Date.now()` (here 5000) instead of the injected clock, so no refill ever
happens while the injected clock is behind it and `check(10)` returns false.
The second conjunct shows the same scenario succeeds exactly when the
ambient construction time coincides with the injected clock's origin,
confirming the refill math itself. -/
theorem c1_scenario_b_vs_constructor_clock :
    ((TokenBucket.create 10 5 5000).map (fun b =>
        let p := b.allow 0 10
        (p.1, (p.2.check 2000 10).1)) = some (true, false))
    ∧ ((TokenBucket.create 10 5 0).map (fun b =>
        let p := b.allow 0 10
        (p.1, (p.2.check 2000 10).1)) = some (true, true)) := by
  constructor <;>
    norm_num [TokenBucket.create, TokenBucket.allow, TokenBucket.refill, TokenBucket.check]

/-- C2 counterexample: with an arbitrary (here negative) cost argument the
invariant fails — on a fresh capacity-10 bucket, `allow(-1)` pushes the
stored token count to 11, above capacity. -/
theorem c2_counterexample_negative_cost :
    ¬ (∀ b : TokenBucket, TokenBucket.create 10 5 0 = some b →
        0 ≤ (runOps b [Op.allow 0 (-1)]).tokens
        ∧ (runOps b [Op.allow 0 (-1)]).tokens ≤ (runOps b [Op.allow 0 (-1)]).capacity) := by
  intro h
  have hb : TokenBucket.create 10 5 0 = some bucketA := by
    norm_num [TokenBucket.create, bucketA]
  have h2 := h bucketA hb
  norm_num [runOps, List.foldl, Op.apply, TokenBucket.allow, TokenBucket.refill, bucketA] at h2

/-- C2 (amended): for every sequence of operations whose `allow` calls use
nonnegative costs, `0 ≤ tokens ≤ capacity` holds after every call on a
bucket accepted by the constructor. -/
theorem c2_tokens_within_bounds (c r d : ℚ) (b : TokenBucket) (ops : List Op)
    (hb : TokenBucket.create c r d = some b)
    (hops : ∀ op ∈ ops, op.nonnegAllowCost) :
    0 ≤ (runOps b ops).tokens ∧ (runOps b ops).tokens ≤ (runOps b ops).capacity := by
  have h := TokenBucket.create_eq_some c r d b hb
  exact runOps_inv b ops h.1 h.2 hops

/-- Witness for C2 at a concrete bucket and operation sequence. -/
theorem c2_tokens_within_bounds_witness :
    0 ≤ (runOps bucketA [Op.allow 0 3, Op.check 1000 2]).tokens
    ∧ (runOps bucketA [Op.allow 0 3, Op.check 1000 2]).tokens
        ≤ (runOps bucketA [Op.allow 0 3, Op.check 1000 2]).capacity := by
  refine c2_tokens_within_bounds 10 5 0 bucketA _ ?_ ?_
  · norm_num [TokenBucket.create, bucketA]
  · intro op hop
    simp only [List.mem_cons, List.mem_singleton, List.not_mem_nil, or_false] at hop
    rcases hop with rfl | rfl <;> norm_num [Op.nonnegAllowCost]

/-- C3: the local bucket and the Redis script agree.  For every stored state
`(tokens, lastRefill)`, clock value `now` and `cost`: one execution of the
Lua script with `consume = 1` on a key holding that state returns the same
`allowed` as the local `allow` and persists exactly the local bucket's
resulting `(tokens, lastRefillTimestamp)`; and the script with
`consume = 0` returns the same boolean as the local `check`. -/
theorem c3_local_redis_equivalence (b : TokenBucket) (now cost : ℚ) :
    ((luaTokenBucket b.capacity b.refillRate cost now true
        (some (b.tokens, b.lastRefillTimestamp))).allowed = (b.allow now cost).1
      ∧ (luaTokenBucket b.capacity b.refillRate cost now true
          (some (b.tokens, b.lastRefillTimestamp))).stored
        = ((b.allow now cost).2.tokens, (b.allow now cost).2.lastRefillTimestamp))
    ∧ (luaTokenBucket b.capacity b.refillRate cost now false
        (some (b.tokens, b.lastRefillTimestamp))).allowed = (b.check now cost).1 := by
  simp only [luaTokenBucket, TokenBucket.allow, TokenBucket.check, TokenBucket.refill,
    ite_gt_eq_min]
  by_cases he : 0 < now - b.lastRefillTimestamp
  · have he2 : 0 < (now - b.lastRefillTimestamp) / 1000 := (div_thousand_pos_iff _).mpr he
    simp only [gt_iff_lt, he, he2, if_true]
    split_ifs <;> simp_all
  · have he2 : ¬ 0 < (now - b.lastRefillTimestamp) / 1000 :=
      fun hc => he ((div_thousand_pos_iff _).mp hc)
    simp only [gt_iff_lt, he, he2, if_false]
    split_ifs <;> simp_all

/-- C4: when the Lua script runs against a key with no stored state it
initialises `tokens = capacity`, `lastRefill = now` before refilling and
deciding, so the first consuming run for any `cost ≤ capacity` is allowed
and stores `(capacity - cost, now)` — a never-seen key starts full. -/
theorem c4_absent_key_starts_full (capacity refillRate cost nowMs : ℚ)
    (h : cost ≤ capacity) :
    (luaTokenBucket capacity refillRate cost nowMs true none).allowed = true
    ∧ (luaTokenBucket capacity refillRate cost nowMs true none).stored
        = (capacity - cost, nowMs) := by
  simp only [luaTokenBucket]
  rw [if_neg (by simp : ¬ nowMs - nowMs > 0)]
  rw [if_pos (by exact h : capacity ≥ cost)]
  simp

/-- Witness for C4 with capacity 10, refill rate 5, cost 10 at time 0. -/
theorem c4_absent_key_starts_full_witness :
    (luaTokenBucket 10 5 10 0 true none).allowed = true
    ∧ (luaTokenBucket 10 5 10 0 true none).stored = (10 - 10, 0) :=
  c4_absent_key_starts_full 10 5 10 0 (by norm_num)

/-- C5 counterexample: on a denied `allow` with a registered hook that
throws, the call does not return `false` — the exception propagates out of
`allow` (the result is the thrown error, not `Except.ok false`). -/
theorem c5_counterexample_hook_throw_propagates :
    (TokenBucket.create 10 5 0).map (fun b0 =>
      (((b0.allow 0 10).2).allowHook 0 0 1 true).1) = some (Except.error ()) := by
  norm_num [TokenBucket.create, TokenBucket.allow, TokenBucket.allowHook,
    TokenBucket.getState, TokenBucket.refill]

/-- C5 (amended): a throwing rate-limit hook does not corrupt state — the
bucket (tokens, lastRefill, capacity, refillRate, metrics counters) after a
denied `allow` whose hook throws is exactly the bucket a non-throwing hook
would leave, and likewise for the registry-level hook on
`allow(identifier, cost)` denial; only the call's outcome differs (the
exception propagates instead of `false` being returned). -/
theorem c5_throwing_hook_preserves_state :
    (∀ (b : TokenBucket) (now1 now2 cost : ℚ),
        (b.allowHook now1 now2 cost true).2 = (b.allowHook now1 now2 cost false).2)
    ∧ (∀ (m : Manager) (nowM nowB nowS : ℚ) (key : String) (cost : ℚ),
        (Manager.allowHook m nowM nowB nowS key cost true).2
          = (Manager.allowHook m nowM nowB nowS key cost false).2) := by
  constructor
  · intro b now1 now2 cost
    simp only [TokenBucket.allowHook]
    split_ifs <;> rfl
  · intro m nowM nowB nowS key cost
    simp only [Manager.allowHook]
    split_ifs <;> rfl

/-- C6: the retry loop of `acquire` fails with the timeout error exactly at
the decision point the claim describes — after a failed `allow(cost)` with a
positive computed wait and a `timeoutMs` deadline set, the iteration throws
the timeout error precisely when the elapsed time since entry plus the wait
computed by `timeToRefill(cost)` exceeds `timeoutMs`, and otherwise sleeps
and retries.  The second conjunct is the spec's concrete scenario: capacity
1, refill rate 1, tokens 0 at t=0 — `acquire(1, timeoutMs = 100)` fails with
the timeout condition. -/
theorem c6_acquire_timeout_characterisation :
    (∀ (τ : ℕ → ℚ) (cost tmo start : ℚ) (fuel k : ℕ) (b : TokenBucket),
        (b.allow (τ k) cost).1 = false →
        0 < ((b.allow (τ k) cost).2.timeToRefill (τ (k + 1)) cost).1 →
        acquireLoop τ cost (some tmo) start (fuel + 1) k b =
          (if τ (k + 2) - start
                + ((((b.allow (τ k) cost).2.timeToRefill (τ (k + 1)) cost).1 : ℤ) : ℚ) > tmo
           then (some AcquireResult.timeoutErr,
                 ((b.allow (τ k) cost).2.timeToRefill (τ (k + 1)) cost).2)
           else acquireLoop τ cost (some tmo) start fuel (k + 3)
                 ((b.allow (τ k) cost).2.timeToRefill (τ (k + 1)) cost).2))
    ∧ ((TokenBucket.create 1 1 0).map (fun b0 =>
          (acquire (fun _ => 0) 1 ((b0.allow 0 1).2) 1 (some 100)).1)
        = some (some AcquireResult.timeoutErr)) := by
  constructor
  · intro τ cost tmo start fuel k b h1 h2
    conv_lhs => rw [acquireLoop]
    simp only [h1, Bool.false_eq_true, if_false, if_neg (not_le.mpr h2)]
  · norm_num [TokenBucket.create, TokenBucket.allow, TokenBucket.refill, TokenBucket.check,
      TokenBucket.timeToRefill, acquire, acquireLoop]

/-- Witness for C6's loop characterisation at the concrete scenario bucket. -/
theorem c6_acquire_timeout_witness :
    (acquireLoop (fun _ => 0) 1 (some 100) 0 1 0 bucketE).1
      = some AcquireResult.timeoutErr := by
  have h := c6_acquire_timeout_characterisation.1 (fun _ => 0) 1 100 0 0 0 bucketE
    (by norm_num [bucketE, TokenBucket.allow, TokenBucket.refill])
    (by norm_num [bucketE, TokenBucket.allow, TokenBucket.refill, TokenBucket.timeToRefill])
  rw [h]
  norm_num [bucketE, TokenBucket.allow, TokenBucket.refill, TokenBucket.timeToRefill]

/-- C7: `timeToRefill(cost)` refills first, returns 0 when the post-refill
tokens already cover `cost`, and otherwise
`ceil(((cost − tokens) / refillRate) × 1000)` (for a positive refill rate,
where the formula is meaningful).  The second conjunct is the spec's
scenario A: capacity 10, refill rate 5, clock fixed at 0 — `allow(10)` true,
then `allow(1)` false, then `timeToRefill(1) = 200`. -/
theorem c7_time_to_refill_formula :
    (∀ (b : TokenBucket) (now cost : ℚ), 0 < b.refillRate →
        (b.timeToRefill now cost).1 =
          if (b.refill now).tokens ≥ cost then 0
          else ⌈(cost - (b.refill now).tokens) / b.refillRate * 1000⌉)
    ∧ ((TokenBucket.create 10 5 0).map (fun b0 =>
        let p1 := b0.allow 0 10
        let p2 := p1.2.allow 0 1
        let p3 := p2.2.timeToRefill 0 1
        (p1.1, p2.1, p3.1)) = some (true, false, 200)) := by
  constructor
  · intro b now cost _
    simp only [TokenBucket.timeToRefill]
    rw [TokenBucket.refill_refillRate]
    split_ifs <;> rfl
  · norm_num [TokenBucket.create, TokenBucket.allow, TokenBucket.refill,
      TokenBucket.timeToRefill]

/-- Witness for C7's formula at the concrete empty capacity-1 bucket. -/
theorem c7_time_to_refill_formula_witness :
    (bucketE.timeToRefill 0 1).1 =
      if (bucketE.refill 0).tokens ≥ 1 then 0
      else ⌈((1 : ℚ) - (bucketE.refill 0).tokens) / bucketE.refillRate * 1000⌉ :=
  c7_time_to_refill_formula.1 bucketE 0 1 (by norm_num [bucketE])

theorem Op.apply_counters_sum (b : TokenBucket) (op : Op)
    (h : b.totalRequests = b.allowedRequests + b.limitedRequests) :
    (Op.apply b op).totalRequests
      = (Op.apply b op).allowedRequests + (Op.apply b op).limitedRequests := by
  cases op with
  | allow now cost =>
      simp only [Op.apply, TokenBucket.allow]
      have hc := TokenBucket.refill_counters { b with totalRequests := b.totalRequests + 1 } now
      split_ifs <;> simp [hc.1, hc.2.1, hc.2.2] <;> omega
  | check now cost =>
      simp only [Op.apply, TokenBucket.check]
      have hc := TokenBucket.refill_counters b now
      simp [hc.1, hc.2.1, hc.2.2, h]
  | timeToRefill now cost =>
      simp only [Op.apply, TokenBucket.timeToRefill]
      have hc := TokenBucket.refill_counters b now
      split_ifs <;> simp [hc.1, hc.2.1, hc.2.2, h]
  | getState now =>
      have hc := TokenBucket.refill_counters b now
      simp only [Op.apply, TokenBucket.getState]
      simp [hc.1, hc.2.1, hc.2.2, h]
  | reset now => exact h

/-- C9: metrics invariant of the local bucket.  Each `allow` increments
`totalRequests` and exactly one of `allowedRequests`/`limitedRequests`;
`check`, `timeToRefill`, `getState` and `reset` never change any counter;
and after every operation sequence on a freshly constructed bucket,
`totalRequests = allowed + limited`. -/
theorem c9_metrics_invariant :
    (∀ (b : TokenBucket) (now cost : ℚ),
        (b.allow now cost).2.totalRequests = b.totalRequests + 1
        ∧ (((b.allow now cost).2.allowedRequests = b.allowedRequests + 1
             ∧ (b.allow now cost).2.limitedRequests = b.limitedRequests)
           ∨ ((b.allow now cost).2.allowedRequests = b.allowedRequests
             ∧ (b.allow now cost).2.limitedRequests = b.limitedRequests + 1)))
    ∧ (∀ (b : TokenBucket) (now cost : ℚ),
        (b.check now cost).2.getMetrics = b.getMetrics
        ∧ (b.timeToRefill now cost).2.getMetrics = b.getMetrics)
    ∧ (∀ (b : TokenBucket) (now : ℚ),
        (b.getState now).getMetrics = b.getMetrics
        ∧ (b.reset now).getMetrics = b.getMetrics)
    ∧ (∀ (c r d : ℚ) (b : TokenBucket) (ops : List Op),
        TokenBucket.create c r d = some b →
        (runOps b ops).totalRequests
          = (runOps b ops).allowedRequests + (runOps b ops).limitedRequests) := by
  refine ⟨?_, ?_, ?_, ?_⟩
  · intro b now cost
    simp only [TokenBucket.allow]
    have hc := TokenBucket.refill_counters { b with totalRequests := b.totalRequests + 1 } now
    split_ifs
    · exact ⟨hc.1, Or.inl ⟨by rw [hc.2.1], hc.2.2⟩⟩
    · exact ⟨hc.1, Or.inr ⟨hc.2.1, by rw [hc.2.2]⟩⟩
  · intro b now cost
    have hc := TokenBucket.refill_counters b now
    constructor
    · simp only [TokenBucket.check, TokenBucket.getMetrics]
      rw [hc.1, hc.2.1, hc.2.2]
    · simp only [TokenBucket.timeToRefill, TokenBucket.getMetrics]
      split_ifs <;> rw [hc.1, hc.2.1, hc.2.2]
  · intro b now
    have hc := TokenBucket.refill_counters b now
    exact ⟨by simp only [TokenBucket.getState, TokenBucket.getMetrics]; rw [hc.1, hc.2.1, hc.2.2],
      rfl⟩
  · intro c r d b ops hb
    have hb0 : b.totalRequests = b.allowedRequests + b.limitedRequests := by
      unfold TokenBucket.create at hb
      split_ifs at hb
      rw [Option.some.injEq] at hb
      subst hb
      rfl
    clear hb
    induction ops generalizing b with
    | nil => exact hb0
    | cons op tl ih => exact ih (Op.apply b op) (Op.apply_counters_sum b op hb0)

/-- Witness for C9's sequence invariant: concrete bucket, concrete ops. -/
theorem c9_metrics_invariant_witness :
    (runOps bucketA [Op.allow 0 3, Op.allow 0 20, Op.reset 0]).totalRequests
      = (runOps bucketA [Op.allow 0 3, Op.allow 0 20, Op.reset 0]).allowedRequests
        + (runOps bucketA [Op.allow 0 3, Op.allow 0 20, Op.reset 0]).limitedRequests :=
  c9_metrics_invariant.2.2.2 10 5 0 bucketA [Op.allow 0 3, Op.allow 0 20, Op.reset 0]
    (by norm_num [TokenBucket.create, bucketA])

/-- C10: `reset()` sets `tokens = capacity` and `lastRefillTimestamp` to the
current clock value and changes nothing else — capacity, refill rate and the
metrics counters are untouched; in particular `reset` does not clear
`getMetrics`. -/
theorem c10_reset_frame (b : TokenBucket) (now : ℚ) :
    (b.reset now).tokens = b.capacity
    ∧ (b.reset now).lastRefillTimestamp = now
    ∧ (b.reset now).capacity = b.capacity
    ∧ (b.reset now).refillRate = b.refillRate
    ∧ (b.reset now).getMetrics = b.getMetrics :=
  ⟨rfl, rfl, rfl, rfl, rfl⟩

theorem Manager.find_eraseKey (l : List (String × TokenBucket × ℚ)) (key : String) :
    (Manager.eraseKey l key).find? (fun e => e.1 == key) = none := by
  rw [List.find?_eq_none]
  intro x hx
  rw [Manager.eraseKey, List.mem_filter] at hx
  simpa using hx.2

theorem Manager.findEntry_some (m : Manager) (key : String) (b : TokenBucket) (la : ℚ)
    (h : m.findEntry key = some (b, la)) :
    m.entries.find? (fun e => e.1 == key) = some (key, b, la) := by
  unfold Manager.findEntry at h
  cases hf : m.entries.find? (fun e => e.1 == key) with
  | none => rw [hf] at h; simp at h
  | some e =>
      rw [hf] at h
      simp only [Option.map_some', Option.some.injEq] at h
      have he1 : e.1 = key := by simpa using List.find?_some hf
      exact congrArg some (Prod.ext he1 h)

/-- C8: registry resolution with a configured TTL.  An entry accessed within
the TTL is returned as-is with `lastAccess` updated; one idle past the TTL is
discarded and a fresh bucket is built by the factory and stored.  The second
part is the spec's concrete scenario: `ttlMs = 1000`, key `"a"` resolved at
t=0 and used, resolved again at t=2000 yields the factory's fresh full
bucket, while `cleanup()` at t=500 leaves the entry intact and at t=1500
removes it. -/
theorem c8_registry_ttl_eviction :
    (∀ (m : Manager) (key : String) (b : TokenBucket) (la ttl now : ℚ),
        m.ttlMs = some ttl → m.findEntry key = some (b, la) →
        ((now - la ≤ ttl →
            m.get now key
              = (b, { m with entries := Manager.setEntry m.entries key b now }))
         ∧ (now - la > ttl →
            m.get now key
              = (m.createBucket key,
                 { m with entries := (Manager.setEntry (Manager.eraseKey m.entries key) key
                     (m.createBucket key) now) }))))
    ∧ ((((Manager.allow ((managerA.get 0 "a").2) 0 0 "a" 3).2).get 2000 "a").1.tokens = 10
       ∧ (((Manager.allow ((managerA.get 0 "a").2) 0 0 "a" 3).2).cleanup 500).findEntry "a"
           = some (⟨10, 5, 7, 0, 1, 1, 0⟩, 0)
       ∧ (((Manager.allow ((managerA.get 0 "a").2) 0 0 "a" 3).2).cleanup 1500).findEntry "a"
           = none) := by
  constructor
  · intro m key b la ttl now ht hf
    have hfind := Manager.findEntry_some m key b la hf
    constructor
    · intro hle
      simp only [Manager.get]
      rw [hf, ht]
      dsimp only
      rw [if_neg (not_lt.mpr hle)]
      rw [hfind]
    · intro hgt
      simp only [Manager.get]
      rw [hf, ht]
      dsimp only
      rw [if_pos hgt]
      rw [Manager.find_eraseKey]
  · norm_num [Manager.get, Manager.allow, Manager.cleanup, Manager.findEntry,
      Manager.setEntry, Manager.eraseKey, managerA, bucketA,
      TokenBucket.allow, TokenBucket.refill, List.find?, List.filter]

/-- Witness for C8's resolution cases at a concrete one-entry manager. -/
theorem c8_registry_ttl_eviction_witness :
    managerB.get 500 "a"
      = (bucketA, { managerB with entries := Manager.setEntry managerB.entries "a" bucketA 500 }) :=
  (c8_registry_ttl_eviction.1 managerB "a" bucketA 0 1000 500 rfl
    (by simp [managerB, Manager.findEntry])).1 (by norm_num)
